import Mathlib

/-!
Verification of `src/dataCollection.py` (Dhulo-Watch).

The program walks a three-level resource hierarchy (locations → sensors →
time-chunked measurement pages) of a remote HTTP API, normalizes the raw
measurement records and writes them to a buffered CSV or a streamed NDJSON
file.  This file gives a shallow embedding of the program's pure core and of
its control flow, and proves the spec's claims about it.

Modelling conventions:
- JSON values (Python dicts/lists/scalars as returned by `r.json()`) are the
  inductive type `JVal`; Python `None` is `JVal.null`, and Python truthiness
  is the function `truthy`.
- Python exceptions are the type `PyErr`; code that may raise returns
  `Except PyErr _`.
- `datetime` values are `Int` microseconds since an arbitrary epoch (Python
  datetimes have microsecond resolution); `timedelta(days = d)` is
  `timedeltaDays d`.
- The remote HTTP endpoints are abstracted as functions from a page number to
  a response (`Page`), matching the spec's treatment of the HTTP client as an
  external collaborator with a fixed contract.
- Generator loops whose termination depends on the remote data are embedded
  with an explicit fuel parameter; `none` means the fuel was exhausted before
  the loop finished, so divergence of the source loop is `none` for every
  fuel.
-/

/-- A JSON-like value as produced by `r.json()`; `null` doubles as Python
`None`, which is also the program's explicit missing-value marker. -/
inductive JVal : Type where
  | null : JVal
  | bool : Bool → JVal
  | num : Int → JVal
  | str : String → JVal
  | arr : List JVal → JVal
  | obj : List (String × JVal) → JVal

/-- Python exceptions that the program can raise or catch. -/
inductive PyErr : Type where
  | attributeError : PyErr
  | httpError : PyErr
  | runtimeError : PyErr
deriving DecidableEq

/-- Python truthiness of a `JVal` (`if not rec: ...`, `x or y`). -/
def truthy : JVal → Bool
  | .null => false
  | .bool b => b
  | .num n => n != 0
  | .str s => s != ""
  | .arr xs => !xs.isEmpty
  | .obj fs => !fs.isEmpty

/-- Python `d.get(k)` on a dict modelled as an association list: `None`
(`JVal.null`) when the key is absent. -/
def jget (fs : List (String × JVal)) (k : String) : JVal :=
  (fs.lookup k).getD .null

/-- Python `x or {}`: the value itself when truthy, else an empty dict. -/
def orEmptyDict (v : JVal) : JVal :=
  if truthy v then v else .obj []

/-- The normalized row built by `safe_extract`: one field per key of the dict
literal in the source. -/
structure Row where
  location : JVal
  parameter : JVal
  value : JVal
  unit : JVal
  date_utc : JVal
  date_local : JVal
  latitude : JVal
  longitude : JVal
  attribution : JVal
  sourceName : JVal
  raw : JVal

/-- Embedding of `safe_extract(rec)`.  `if not rec: return None` is the falsy
check; `rec.get(...)` raises `AttributeError` when `rec` is not a dict;
`coords`/`date` are `rec.get(k) or {}` and their `.get` calls raise when the
stored value is truthy but not a dict. -/
def safe_extract (rec : JVal) : Except PyErr (Option Row) :=
  if truthy rec = false then .ok none
  else
    match rec with
    | .obj fs =>
      match orEmptyDict (jget fs "coordinates"), orEmptyDict (jget fs "date") with
      | .obj cfs, .obj dfs =>
        .ok (some
          { location := jget fs "location"
            parameter := jget fs "parameter"
            value := jget fs "value"
            unit := jget fs "unit"
            date_utc := jget dfs "utc"
            date_local := jget dfs "local"
            latitude := jget cfs "latitude"
            longitude := jget cfs "longitude"
            attribution := jget fs "attribution"
            sourceName := jget fs "sourceName"
            raw := rec })
      | _, _ => .error .attributeError
    | _ => .error .attributeError

/-- Embedding of the sensor-parameter resolution in `main`:
`sensor_param = (s.get("parameter") or {})`, then the dict branch takes
`sensor_param.get("name") or sensor_param.get("display_name")` while a
non-dict truthy value is used as-is.  The argument is `s.get("parameter")`
(`none` when the key is absent, mapping to Python `None`). -/
def sensorParamName (p : Option JVal) : JVal :=
  let sp := orEmptyDict (p.getD .null)
  match sp with
  | .obj fs =>
    let n := jget fs "name"
    if truthy n then n else jget fs "display_name"
  | v => v

/-! ## Time-chunk planner: `chunk_ranges` -/

/-- Microseconds in one day; `datetime`/`timedelta` arithmetic has microsecond
resolution. -/
def usPerDay : Int := 86400000000

/-- Python `timedelta(days = d)` as a duration in microseconds. -/
def timedeltaDays (d : Int) : Int := d * usPerDay

/-- Embedding of the generator `chunk_ranges(start_dt, end_dt, days)` with
explicit fuel: one unit of fuel per loop iteration
(`cur = start; while cur < end: nxt = min(end, cur + delta); yield (cur, nxt);
cur = nxt`).  `none` means the fuel ran out before the loop finished, so the
source loop diverges exactly when the result is `none` for every fuel. -/
def chunkRangesFuel : Nat → Int → Int → Int → Option (List (Int × Int))
  | 0, cur, e, _ => if cur < e then none else some []
  | fuel + 1, cur, e, d =>
    if cur < e then
      match chunkRangesFuel fuel (min e (cur + d)) e d with
      | none => none
      | some l => some ((cur, min e (cur + d)) :: l)
    else some []

/-- The generator `chunk_ranges start e d` runs to completion and emits
exactly the finite sequence `l`. -/
def chunkEmits (s e d : Int) (l : List (Int × Int)) : Prop :=
  ∃ fuel, chunkRangesFuel fuel s e d = some l

/-- The generator `chunk_ranges start e d` terminates. -/
def chunkTerminates (s e d : Int) : Prop :=
  ∃ l, chunkEmits s e d l

/-- Structural description of a completed run of the `chunk_ranges` loop from
state `cur`: the list is empty iff the loop guard fails, and otherwise the
head chunk is `(cur, min e (cur + d))` and the tail continues from its end. -/
def ChunksFrom (e d : Int) : Int → List (Int × Int) → Prop
  | cur, [] => e ≤ cur
  | cur, c :: rest => cur < e ∧ c.1 = cur ∧ c.2 = min e (cur + d) ∧ ChunksFrom e d c.2 rest

/-! ## Paginated endpoints: `find_locations` and `fetch_sensor_measurements`

A paginated remote endpoint is a function from a page number to the response
for that page.  A response carries the HTTP status code and the decoded
`results` array; the elements stay abstract (`α`).  Each issued request is
recorded as its `page` and `limit` query parameters. -/

/-- The `page` and `limit` query parameters of one issued page request. -/
structure Req where
  page : Nat
  limit : Nat
deriving DecidableEq

/-- One HTTP response of a paginated endpoint: status code and the decoded
`results` array (`j.get("results", [])`). -/
structure Page (α : Type) where
  status : Nat
  results : List α

/-- The configured measurement page size (`PAGE_LIMIT = 1000`). -/
def PAGE_LIMIT : Nat := 1000

/-- Embedding of the loop of `fetch_sensor_measurements` with explicit fuel,
generalized over the page limit `pl` that the source reads from the global
`PAGE_LIMIT`.  Returns the issued requests and the yielded records; the
branches mirror the source in order: 404 → return, status ≠ 200 → return,
empty results → break, yield all records, short page → break, else next
page.  `none` means the fuel ran out before the loop finished. -/
def fetchMeasFuel {α : Type} (pl : Nat) (ep : Nat → Page α) :
    Nat → Nat → Option (List Req × List α)
  | 0, _ => none
  | fuel + 1, page =>
    let r := ep page
    if r.status = 404 then some ([⟨page, pl⟩], [])
    else if r.status ≠ 200 then some ([⟨page, pl⟩], [])
    else if r.results.isEmpty then some ([⟨page, pl⟩], [])
    else if r.results.length < pl then some ([⟨page, pl⟩], r.results)
    else
      match fetchMeasFuel pl ep fuel (page + 1) with
      | none => none
      | some (reqs, recs) => some (⟨page, pl⟩ :: reqs, r.results ++ recs)

/-- Embedding of `fetch_sensor_measurements(sensor_id, date_from, date_to)`:
pagination starts at page 1 with the configured `PAGE_LIMIT`; the sensor id,
the chunk boundaries and the parameter filter only select the endpoint, which
is abstracted as `ep`. -/
def fetch_sensor_measurements {α : Type} (ep : Nat → Page α) (fuel : Nat) :
    Option (List Req × List α) :=
  fetchMeasFuel PAGE_LIMIT ep fuel 1

/-- A measurement page that keeps the loop going: success, non-empty, and not
below the page limit. -/
def fullMeasPage {α : Type} (pl : Nat) (p : Page α) : Prop :=
  p.status = 200 ∧ p.results ≠ [] ∧ ¬ p.results.length < pl

/-- A measurement page at which the loop stops: failure status, empty
results, or a result count below the page limit. -/
def terminalMeasPage {α : Type} (pl : Nat) (p : Page α) : Prop :=
  p.status ≠ 200 ∨ p.results = [] ∨ p.results.length < pl

/-- Embedding of the loop of `find_locations` with explicit fuel.  The page
size is the literal `100` from the `params` dict in the source, and
`r.raise_for_status()` raises (here: `Except.error`) exactly for status codes
of 400 and above.  Branch order mirrors the source: raise on error status,
break on empty results, extend, break on a short page, else next page.
`none` means the fuel ran out before the loop finished. -/
def findLocFuel {α : Type} (ep : Nat → Page α) :
    Nat → Nat → Option (Except PyErr (List Req × List α))
  | 0, _ => none
  | fuel + 1, page =>
    let r := ep page
    if 400 ≤ r.status then some (.error .httpError)
    else if r.results.isEmpty then some (.ok ([⟨page, 100⟩], []))
    else if r.results.length < 100 then some (.ok ([⟨page, 100⟩], r.results))
    else
      match findLocFuel ep fuel (page + 1) with
      | none => none
      | some (.error e) => some (.error e)
      | some (.ok (reqs, locs)) => some (.ok (⟨page, 100⟩ :: reqs, r.results ++ locs))

/-- Embedding of `find_locations()`: pagination starts at page 1; the center,
radius and API key only select the endpoint, which is abstracted as `ep`. -/
def find_locations {α : Type} (ep : Nat → Page α) (fuel : Nat) :
    Option (Except PyErr (List Req × List α)) :=
  findLocFuel ep fuel 1

/-- A location page that keeps the loop going: no raising status and at least
the full page size of 100 results. -/
def fullLocPage {α : Type} (p : Page α) : Prop :=
  p.status < 400 ∧ ¬ p.results.length < 100

/-- A location page at which the loop stops normally: no raising status and
an empty or short result set. -/
def termLocPage {α : Type} (p : Page α) : Prop :=
  p.status < 400 ∧ (p.results = [] ∨ p.results.length < 100)

/-- The measurement endpoint of the spec's pagination scenario: page 1 holds
exactly `PAGE_LIMIT` records, every later page is empty. -/
def measEpC2 : Nat → Page Nat
  | 1 => ⟨200, List.replicate 1000 7⟩
  | _ => ⟨200, []⟩

/-! ## The orchestrating run: `main`

The remote collaborators that `main` drives are abstracted as a `World`:
the outcome of top-level location discovery (`find_locations()` succeeding
with a list of location records or raising), the per-location fallback
sensors lookup (`requests.get(f"{BASE}/locations/{id}/sensors")` plus
`raise_for_status`, which may raise), and the per-(sensor, chunk) measurement
fetch.  Location and sensor descriptors are modelled as well-formed records
(the fields `main` reads: `id`, `name`, `sensors`, `parameter`); measurement
records stay arbitrary `JVal`s, so record-level malformation is represented.
A fetch returns the records the generator yielded before a possible exception
together with that exception, since an exception raised mid-iteration still
leaves the earlier records processed. -/

/-- A sensor descriptor: `s.get("id")` and `s.get("parameter")` (`none` when
the key is absent). -/
structure Sensor where
  id : JVal
  parameter : Option JVal

/-- A location descriptor: `loc.get("id")`, `loc.get("name")` and
`loc.get("sensors", [])`. -/
structure Loc where
  id : JVal
  name : JVal
  sensors : List Sensor

/-- The remote collaborators of one run. -/
structure World where
  locations : Except PyErr (List Loc)
  fallback : JVal → Except PyErr (List Sensor)
  fetch : JVal → Int × Int → List JVal × Option PyErr

/-- One output row: the normalized fields of `safe_extract` with the
location/sensor metadata attached in `main`'s `out` dict. -/
structure OutRow where
  location_id : JVal
  location_name : JVal
  sensor_id : JVal
  sensor_parameter : JVal
  norm : Row

/-- The observable outcome of a completed run: buffered rows, streamed
NDJSON lines, whether the CSV was written, whether the NDJSON file was
created (opening with mode `"a"` creates it), and whether the zero-row
warning was printed. -/
structure MainResult where
  rows : List OutRow
  lines : List OutRow
  csvWritten : Bool
  fileCreated : Bool
  warned : Bool

/-- The innermost `try` of `main`: normalize one record, skipping it when
`safe_extract` raises (caught per record) or returns the empty-record
sentinel (warned and skipped). -/
def processRecord (locId locName sensorId paramName : JVal) (rec : JVal) : Option OutRow :=
  match safe_extract rec with
  | .error _ => none
  | .ok none => none
  | .ok (some norm) => some ⟨locId, locName, sensorId, paramName, norm⟩

/-- The configured chunk size (`CHUNK_DAYS = 30`). -/
def CHUNK_DAYS : Int := 30

/-- The chunk list of one run: `chunk_ranges(two_years_ago, now)` with the
default `CHUNK_DAYS`, drained eagerly.  The fuel `(e - s).toNat` is
sufficient for this call (`chunkRangesFuel_total`), so the `getD` default is
never taken here. -/
def mainChunks (now : Int) : List (Int × Int) :=
  (chunkRangesFuel (now - (now - timedeltaDays 730)).toNat
    (now - timedeltaDays 730) now (timedeltaDays CHUNK_DAYS)).getD []

/-- Sensor resolution for one location: the embedded list when non-empty,
else the fallback lookup with any failure caught and degraded to `[]`. -/
def sensorsOf (w : World) (loc : Loc) : List Sensor :=
  if loc.sensors.isEmpty then
    match w.fallback loc.id with
    | .ok ss => ss
    | .error _ => []
  else loc.sensors

/-- The work of one location: every sensor, every chunk, every record the
fetch yielded before a possible exception; the per-chunk `try` catches the
fetch exception, so it does not affect the emitted rows. -/
def processLoc (w : World) (chunks : List (Int × Int)) (loc : Loc) : List OutRow :=
  (sensorsOf w loc).flatMap (fun s =>
    chunks.flatMap (fun c =>
      (w.fetch s.id c).1.filterMap
        (processRecord loc.id loc.name s.id (sensorParamName s.parameter))))

/-- The output stage of `main()`: the collected rows go to the in-memory
buffer in buffered mode and to the NDJSON file in streaming mode; with an
empty buffer and no NDJSON configured, warn and return before writing
anything, otherwise write the CSV when the buffer is non-empty.  The NDJSON
file is created by the `open(..., "a")` whenever streaming is configured. -/
def outputStage (outputNdjson : Bool) (outs : List OutRow) : MainResult :=
  let rows := if outputNdjson then [] else outs
  let lines := if outputNdjson then outs else []
  if rows.isEmpty && !outputNdjson then
    ⟨rows, lines, false, outputNdjson, true⟩
  else
    ⟨rows, lines, !rows.isEmpty, outputNdjson, false⟩

/-- Embedding of `main()`: location discovery (fatal when it raises), the
triple nested loop over locations, sensors and chunks, then the output
stage. -/
def mainRun (w : World) (outputNdjson : Bool) (now : Int) : Except PyErr MainResult :=
  match w.locations with
  | .error e => .error e
  | .ok locs =>
    .ok (outputStage outputNdjson (locs.flatMap (processLoc w (mainChunks now))))

/-! ## Theorems -/

example : safe_extract .null = .ok none := by rfl

example : safe_extract (.obj []) = .ok none := by rfl

example : safe_extract (.str "x") = .error .attributeError := by rfl

example :
    safe_extract (.obj [("value", .num 5)]) =
      .ok (some
        { location := .null, parameter := .null, value := .num 5, unit := .null
          date_utc := .null, date_local := .null, latitude := .null
          longitude := .null, attribution := .null, sourceName := .null
          raw := .obj [("value", .num 5)] }) := by rfl

example : sensorParamName (some (.str "pm25")) = .str "pm25" := by rfl

example : sensorParamName (some (.obj [("name", .str "pm25")])) = .str "pm25" := by rfl

example : sensorParamName (some (.str "")) = .null := by rfl

example : sensorParamName (some (.obj [("name", .str "")])) = .null := by rfl

example : sensorParamName none = .null := by rfl

theorem chunkRangesFuel_chunksFrom {e d : Int} :
    ∀ {fuel cur l}, chunkRangesFuel fuel cur e d = some l → ChunksFrom e d cur l := by
  intro fuel
  induction fuel with
  | zero =>
    intro cur l h
    simp only [chunkRangesFuel] at h
    split at h
    · exact absurd h (by simp)
    · cases h
      simpa [ChunksFrom] using by omega
  | succ n ih =>
    intro cur l h
    simp only [chunkRangesFuel] at h
    split at h
    case isTrue hcur =>
      cases hrec : chunkRangesFuel n (min e (cur + d)) e d with
      | none => rw [hrec] at h; cases h
      | some tl =>
        rw [hrec] at h
        cases h
        exact ⟨hcur, rfl, rfl, ih hrec⟩
    case isFalse hcur =>
      cases h
      simpa [ChunksFrom] using by omega

theorem chunkRangesFuel_total {e d : Int} (hd : 1 ≤ d) :
    ∀ fuel cur, (e - cur).toNat ≤ fuel → ∃ l, chunkRangesFuel fuel cur e d = some l := by
  intro fuel
  induction fuel with
  | zero =>
    intro cur hle
    refine ⟨[], ?_⟩
    simp only [chunkRangesFuel]
    have : ¬ cur < e := by omega
    simp [this]
  | succ n ih =>
    intro cur hle
    by_cases hcur : cur < e
    · have hnext : (e - min e (cur + d)).toNat ≤ n := by omega
      obtain ⟨l, hl⟩ := ih (min e (cur + d)) hnext
      exact ⟨(cur, min e (cur + d)) :: l, by simp [chunkRangesFuel, hcur, hl]⟩
    · exact ⟨[], by simp [chunkRangesFuel, hcur]⟩

theorem chunkRangesFuel_det {e d : Int} :
    ∀ {f₁ : Nat} {f₂ cur l₁ l₂}, chunkRangesFuel f₁ cur e d = some l₁ →
      chunkRangesFuel f₂ cur e d = some l₂ → l₁ = l₂ := by
  intro f₁
  induction f₁ with
  | zero =>
    intro f₂ cur l₁ l₂ h₁ h₂
    simp only [chunkRangesFuel] at h₁
    split at h₁
    · exact absurd h₁ (by simp)
    case isFalse hcur =>
      cases h₁
      cases f₂ with
      | zero => simp [chunkRangesFuel, if_neg hcur] at h₂; exact h₂.symm
      | succ m => simp [chunkRangesFuel, if_neg hcur] at h₂; exact h₂.symm
  | succ n ih =>
    intro f₂ cur l₁ l₂ h₁ h₂
    simp only [chunkRangesFuel] at h₁
    split at h₁
    case isTrue hcur =>
      cases f₂ with
      | zero => simp [chunkRangesFuel, hcur] at h₂
      | succ m =>
        simp only [chunkRangesFuel, if_pos hcur] at h₂
        cases hrec₁ : chunkRangesFuel n (min e (cur + d)) e d with
        | none => rw [hrec₁] at h₁; cases h₁
        | some t₁ =>
          rw [hrec₁] at h₁
          cases hrec₂ : chunkRangesFuel m (min e (cur + d)) e d with
          | none => rw [hrec₂] at h₂; cases h₂
          | some t₂ =>
            rw [hrec₂] at h₂
            cases h₁; cases h₂
            exact congrArg _ (ih hrec₁ hrec₂)
    case isFalse hcur =>
      cases h₁
      cases f₂ <;> simp only [chunkRangesFuel, if_neg hcur] at h₂ <;>
        exact Option.some.inj h₂

theorem chunkEmits_unique {s e d : Int} {l₁ l₂ : List (Int × Int)}
    (h₁ : chunkEmits s e d l₁) (h₂ : chunkEmits s e d l₂) : l₁ = l₂ := by
  obtain ⟨f₁, h₁⟩ := h₁
  obtain ⟨f₂, h₂⟩ := h₂
  exact chunkRangesFuel_det h₁ h₂

theorem chunksFrom_mem {e d : Int} (hd : 1 ≤ d) :
    ∀ {cur l}, ChunksFrom e d cur l →
      ∀ p ∈ l, cur ≤ p.1 ∧ p.1 < p.2 ∧ p.2 ≤ e ∧ p.2 = min e (p.1 + d) := by
  intro cur l
  induction l generalizing cur with
  | nil => intro _ p hp; cases hp
  | cons c rest ih =>
    rintro ⟨hcur, hc1, hc2, hrest⟩ p hp
    rcases List.mem_cons.mp hp with rfl | hp
    · exact ⟨le_of_eq hc1.symm, by omega, by omega, by rw [hc1, hc2]⟩
    · have h := ih hrest p hp
      refine ⟨?_, h.2.1, h.2.2.1, h.2.2.2⟩
      omega

theorem chunksFrom_last {e d : Int} :
    ∀ {cur l} (h : ChunksFrom e d cur l) (hne : l ≠ []), (l.getLast hne).2 = e := by
  intro cur l
  induction l generalizing cur with
  | nil => intro _ hne; exact absurd rfl hne
  | cons c rest ih =>
    rintro ⟨hcur, _, hc2, hrest⟩ hne
    cases rest with
    | nil =>
      simp only [List.getLast]
      simp only [ChunksFrom] at hrest
      omega
    | cons c₂ rest₂ =>
      rw [List.getLast_cons (by simp)]
      exact ih hrest (by simp)

theorem chunksFrom_chain {e d : Int} :
    ∀ {cur l}, ChunksFrom e d cur l → l.Chain' (fun p q => p.2 = q.1) := by
  intro cur l
  induction l generalizing cur with
  | nil => intro _; exact List.chain'_nil
  | cons c rest ih =>
    rintro ⟨_, _, _, hrest⟩
    cases rest with
    | nil => exact List.chain'_singleton c
    | cons c₂ rest₂ =>
      refine List.Chain'.cons ?_ (ih hrest)
      exact hrest.2.1.symm

theorem chunksFrom_pairwise {e d : Int} (hd : 1 ≤ d) :
    ∀ {cur l}, ChunksFrom e d cur l → l.Pairwise (fun p q => p.2 ≤ q.1) := by
  intro cur l
  induction l generalizing cur with
  | nil => intro _; exact List.Pairwise.nil
  | cons c rest ih =>
    rintro ⟨hcur, hc1, hc2, hrest⟩
    refine List.Pairwise.cons ?_ (ih hrest)
    intro p hp
    exact (chunksFrom_mem hd hrest p hp).1

theorem chunksFrom_cover {e d : Int} (hd : 1 ≤ d) :
    ∀ {cur l}, ChunksFrom e d cur l →
      ∀ t : Int, (cur ≤ t ∧ t < e) ↔ ∃ p ∈ l, p.1 ≤ t ∧ t < p.2 := by
  intro cur l
  induction l generalizing cur with
  | nil =>
    intro h t
    simp only [ChunksFrom] at h
    simp only [List.not_mem_nil]
    constructor
    · intro ht; omega
    · rintro ⟨p, hp, _⟩; cases hp
  | cons c rest ih =>
    rintro ⟨hcur, hc1, hc2, hrest⟩ t
    constructor
    · rintro ⟨hts, hte⟩
      by_cases hlt : t < c.2
      · exact ⟨c, List.mem_cons_self c rest, by omega, hlt⟩
      · obtain ⟨p, hp, hpt⟩ := ((ih hrest t).mp ⟨by omega, hte⟩)
        exact ⟨p, List.mem_cons_of_mem c hp, hpt⟩
    · rintro ⟨p, hp, hp1, hp2⟩
      rcases List.mem_cons.mp hp with rfl | hp
      · constructor
        · omega
        · have := min_le_left e (p.1 + d); omega
      · have h := chunksFrom_mem hd hrest p hp
        constructor
        · omega
        · omega

theorem chunkRangesFuel_diverge {e d : Int} (hd : d ≤ 0) :
    ∀ fuel cur, cur < e → chunkRangesFuel fuel cur e d = none := by
  intro fuel
  induction fuel with
  | zero => intro cur hcur; simp [chunkRangesFuel, hcur]
  | succ n ih =>
    intro cur hcur
    have hnext : min e (cur + d) < e := by omega
    simp [chunkRangesFuel, hcur, ih (min e (cur + d)) hnext]

theorem one_le_timedeltaDays {days : Int} (h : 1 ≤ days) : 1 ≤ timedeltaDays days := by
  have hpos : (0:Int) < usPerDay := by norm_num [usPerDay]
  calc (1:Int) ≤ 1 * usPerDay := by norm_num [usPerDay]
    _ ≤ days * usPerDay := by exact mul_le_mul_of_nonneg_right h (le_of_lt hpos)
    _ = timedeltaDays days := rfl

theorem timedeltaDays_nonpos {days : Int} (h : days ≤ 0) : timedeltaDays days ≤ 0 := by
  have hpos : (0:Int) ≤ usPerDay := by norm_num [usPerDay]
  calc timedeltaDays days = days * usPerDay := rfl
    _ ≤ 0 * usPerDay := mul_le_mul_of_nonneg_right h hpos
    _ = 0 := by ring

/-- C1 counterexample: the claim quantifies over every chunk size in days, but
at `start_dt = 0`, `end_dt = 1` (microseconds apart) and `chunk_size = 0`
days the loop `cur = start; while cur < end: nxt = min(end, cur + 0); ...;
cur = nxt` never advances `cur`, so no finite chunk sequence is ever emitted
and in particular no emitted sequence ends at `end_dt`. -/
theorem chunk_ranges_c1_cex :
    (0:Int) < 1 ∧
      ¬ ∃ l, chunkEmits 0 1 (timedeltaDays 0) l ∧
        ∀ hne : l ≠ [], (l.getLast hne).2 = 1 := by
  refine ⟨by norm_num, ?_⟩
  rintro ⟨l, ⟨fuel, hfuel⟩, -⟩
  rw [chunkRangesFuel_diverge (timedeltaDays_nonpos le_rfl) fuel 0 (by norm_num)] at hfuel
  cases hfuel

/-- C1 (amended with a positive chunk size): for every start, end and chunk
size of at least one day with start < end, `chunk_ranges` emits a non-empty
finite sequence of chunks that is contiguous (each chunk starts where the
previous one ends), pairwise non-overlapping, starts at `start_dt`, ends at
`end_dt`, has every chunk of length at most the chunk size, and covers
exactly the half-open interval `[start_dt, end_dt)`; for start >= end it
emits nothing (and the empty emission is the only one). -/
theorem chunk_ranges_c1 :
    (∀ s e days : Int, s < e → 1 ≤ days →
      ∃ l, chunkEmits s e (timedeltaDays days) l ∧ l ≠ [] ∧
        (∀ hne : l ≠ [], (l.head hne).1 = s ∧ (l.getLast hne).2 = e) ∧
        l.Chain' (fun p q => p.2 = q.1) ∧
        l.Pairwise (fun p q => p.2 ≤ q.1) ∧
        (∀ p ∈ l, p.2 - p.1 ≤ timedeltaDays days) ∧
        (∀ t : Int, (s ≤ t ∧ t < e) ↔ ∃ p ∈ l, p.1 ≤ t ∧ t < p.2)) ∧
    (∀ s e d : Int, e ≤ s → ∀ l, chunkEmits s e d l ↔ l = []) := by
  constructor
  · intro s e days hse hdays
    have hd : 1 ≤ timedeltaDays days := one_le_timedeltaDays hdays
    obtain ⟨l, hl⟩ := chunkRangesFuel_total hd (e - s).toNat s le_rfl
    have hcf := chunkRangesFuel_chunksFrom hl
    have hne : l ≠ [] := by
      cases l with
      | nil => simp only [ChunksFrom] at hcf; omega
      | cons c rest => simp
    refine ⟨l, ⟨_, hl⟩, hne, ?_, chunksFrom_chain hcf, chunksFrom_pairwise hd hcf, ?_, ?_⟩
    · intro hne'
      refine ⟨?_, chunksFrom_last hcf hne'⟩
      cases l with
      | nil => exact absurd rfl hne'
      | cons c rest => exact hcf.2.1
    · intro p hp
      have h := chunksFrom_mem hd hcf p hp
      omega
    · exact chunksFrom_cover hd hcf
  · intro s e d hes l
    constructor
    · rintro ⟨fuel, hfuel⟩
      have hcf := chunkRangesFuel_chunksFrom hfuel
      cases l with
      | nil => rfl
      | cons c rest => simp only [ChunksFrom] at hcf; omega
    · rintro rfl
      exact ⟨0, by simp [chunkRangesFuel]; omega⟩

/-- C1 witness: instantiation at start 0, end 2 microseconds, chunk size one
day, and at the degenerate pair (5, 3). -/
theorem chunk_ranges_c1_witness :
    (∃ l, chunkEmits 0 2 (timedeltaDays 1) l ∧ l ≠ [] ∧
      (∀ hne : l ≠ [], (l.head hne).1 = 0 ∧ (l.getLast hne).2 = 2) ∧
      l.Chain' (fun p q => p.2 = q.1) ∧
      l.Pairwise (fun p q => p.2 ≤ q.1) ∧
      (∀ p ∈ l, p.2 - p.1 ≤ timedeltaDays 1) ∧
      (∀ t : Int, (0 ≤ t ∧ t < 2) ↔ ∃ p ∈ l, p.1 ≤ t ∧ t < p.2)) ∧
    (chunkEmits 5 3 (timedeltaDays 1) [] ↔ ([] : List (Int × Int)) = []) :=
  ⟨chunk_ranges_c1.1 0 2 1 (by decide) (by decide),
   chunk_ranges_c1.2 5 3 (timedeltaDays 1) (by decide) []⟩

/-- C5 counterexample: the claim asserts termination with no precondition on
the chunk size beyond start < end, but at `start_dt = 0`, `end_dt = 5` and
`chunk_size = -1` days the loop moves `cur` backwards and never terminates:
no finite chunk sequence is emitted at all. -/
theorem chunk_ranges_c5_cex :
    (0:Int) < 5 ∧ ¬ chunkTerminates 0 5 (timedeltaDays (-1)) := by
  refine ⟨by norm_num, ?_⟩
  rintro ⟨l, fuel, hfuel⟩
  rw [chunkRangesFuel_diverge (timedeltaDays_nonpos (by norm_num)) fuel 0 (by norm_num)]
    at hfuel
  cases hfuel

/-- C5 (amended with a positive chunk size): for start < end and a chunk size
of at least one day, `chunk_ranges` terminates, is deterministic (its emitted
sequence is unique), its chunk starts are strictly increasing, and every
chunk's end equals `min(end_dt, chunk_start + chunk_size)`.  For a chunk size
of zero or fewer days and start < end the generator never terminates, so the
positivity precondition cannot be dropped. -/
theorem chunk_ranges_c5 (s e days : Int) (h : s < e) (hdays : 1 ≤ days) :
    ∃ l, chunkEmits s e (timedeltaDays days) l ∧
      (∀ l', chunkEmits s e (timedeltaDays days) l' → l' = l) ∧
      l.Pairwise (fun p q => p.1 < q.1) ∧
      (∀ p ∈ l, p.2 = min e (p.1 + timedeltaDays days)) := by
  have hd : 1 ≤ timedeltaDays days := one_le_timedeltaDays hdays
  obtain ⟨l, hl⟩ := chunkRangesFuel_total hd (e - s).toNat s le_rfl
  have hcf := chunkRangesFuel_chunksFrom hl
  refine ⟨l, ⟨_, hl⟩, ?_, ?_, ?_⟩
  · intro l' hl'
    exact chunkEmits_unique hl' ⟨_, hl⟩
  · refine (chunksFrom_pairwise hd hcf).imp_of_mem ?_
    intro p q hp hq hpq
    have h1 := chunksFrom_mem hd hcf p hp
    omega
  · intro p hp
    exact (chunksFrom_mem hd hcf p hp).2.2.2

/-- C5 witness: instantiation at start 0, end 3 microseconds, chunk size two
days. -/
theorem chunk_ranges_c5_witness :
    ∃ l, chunkEmits 0 3 (timedeltaDays 2) l ∧
      (∀ l', chunkEmits 0 3 (timedeltaDays 2) l' → l' = l) ∧
      l.Pairwise (fun p q => p.1 < q.1) ∧
      (∀ p ∈ l, p.2 = min 3 (p.1 + timedeltaDays 2)) :=
  chunk_ranges_c5 0 3 2 (by decide) (by decide)

theorem fetchMeasFuel_spec {α : Type} (pl : Nat) (ep : Nat → Page α) :
    ∀ (n start : Nat), (∀ i, start ≤ i → i < start + n → fullMeasPage pl (ep i)) →
      terminalMeasPage pl (ep (start + n)) →
      fetchMeasFuel pl ep (n + 1) start =
        some ((List.range' start (n + 1)).map (fun p => ⟨p, pl⟩),
          (List.range' start n).flatMap (fun i => (ep i).results) ++
            if (ep (start + n)).status = 200 then (ep (start + n)).results else []) := by
  intro n
  induction n with
  | zero =>
    intro start _ hterm
    simp only [Nat.add_zero] at hterm
    simp only [fetchMeasFuel, List.range', List.map, List.flatMap_nil, List.nil_append]
    rcases Nat.decEq (ep start).status 404 with h404 | h404
    · rcases hterm with hs | he | hl
      · simp [h404, hs]
      · simp [h404, he, List.isEmpty_iff]
      · by_cases hs : (ep start).status = 200
        · by_cases he : (ep start).results.isEmpty
          · simp [h404, hs, he, List.isEmpty_iff.mp he]
          · simp [h404, hs, he, hl]
        · simp [h404, hs]
    · have hs : (ep start).status ≠ 200 := by omega
      simp [h404, hs]
  | succ n ih =>
    intro start hfull hterm
    have hstart : fullMeasPage pl (ep start) := hfull start le_rfl (by omega)
    obtain ⟨hs, hne, hlen⟩ := hstart
    have h404 : (ep start).status ≠ 404 := by omega
    have hr : start + 1 + n = start + (n + 1) := by omega
    have hrec := ih (start + 1)
      (fun i h1 h2 => hfull i (by omega) (by omega))
      (by rw [hr]; exact hterm)
    rw [hr] at hrec
    have hunfold : fetchMeasFuel pl ep (n + 1 + 1) start =
        match fetchMeasFuel pl ep (n + 1) (start + 1) with
        | none => none
        | some (reqs, recs) => some (⟨start, pl⟩ :: reqs, (ep start).results ++ recs) := by
      simp only [fetchMeasFuel]
      simp [h404, hs, List.isEmpty_iff, hne, hlen]
    rw [hunfold, hrec]
    have hrange : List.range' start (n + 1 + 1) = start :: List.range' (start + 1) (n + 1) := by
      simp [List.range'_succ]
    have hrange₂ : List.range' start (n + 1) = start :: List.range' (start + 1) n := by
      simp [List.range'_succ]
    simp [hrange, hrange₂, List.append_assoc]

example :
    fetch_sensor_measurements (fun _ => ⟨404, ([] : List Nat)⟩) 3 =
      some ([⟨1, 1000⟩], []) := by rfl

example :
    fetch_sensor_measurements (fun p => if p = 1 then ⟨200, [7, 8]⟩ else ⟨200, []⟩) 3 =
      some ([⟨1, 1000⟩], [7, 8]) := by rfl

theorem findLocFuel_spec {α : Type} (ep : Nat → Page α) :
    ∀ (n start : Nat), (∀ i, start ≤ i → i < start + n → fullLocPage (ep i)) →
      termLocPage (ep (start + n)) →
      findLocFuel ep (n + 1) start =
        some (.ok ((List.range' start (n + 1)).map (fun p => ⟨p, 100⟩),
          (List.range' start (n + 1)).flatMap (fun i => (ep i).results))) := by
  intro n
  induction n with
  | zero =>
    intro start _ hterm
    simp only [Nat.add_zero] at hterm
    obtain ⟨hs, hse⟩ := hterm
    have hs' : ¬ 400 ≤ (ep start).status := by omega
    simp only [findLocFuel, hs', if_false]
    rcases hse with he | hl
    · simp [List.isEmpty_iff, he, List.range'_succ]
    · by_cases he : (ep start).results.isEmpty
      · simp [he, List.isEmpty_iff.mp he, List.range'_succ]
      · simp [he, hl, List.range'_succ]
  | succ n ih =>
    intro start hfull hterm
    have hstart : fullLocPage (ep start) := hfull start le_rfl (by omega)
    obtain ⟨hs, hlen⟩ := hstart
    have hs' : ¬ 400 ≤ (ep start).status := by omega
    have hne : ¬ (ep start).results.isEmpty := by
      simp only [List.isEmpty_iff]
      intro hcon
      rw [hcon] at hlen
      exact hlen (by simp)
    have hr : start + 1 + n = start + (n + 1) := by omega
    have hrec := ih (start + 1)
      (fun i h1 h2 => hfull i (by omega) (by omega))
      (by rw [hr]; exact hterm)
    have hunfold : findLocFuel ep (n + 1 + 1) start =
        match findLocFuel ep (n + 1) (start + 1) with
        | none => none
        | some (.error e) => some (.error e)
        | some (.ok (reqs, locs)) =>
            some (.ok (⟨start, 100⟩ :: reqs, (ep start).results ++ locs)) := by
      simp only [findLocFuel]
      simp [hs', hne, hlen]
    rw [hunfold, hrec]
    have hrange : List.range' start (n + 1 + 1) = start :: List.range' (start + 1) (n + 1) := by
      simp [List.range'_succ]
    simp [hrange]

example :
    find_locations (fun p => if p = 1 then ⟨200, [7, 8]⟩ else ⟨200, []⟩) 3 =
      some (.ok ([⟨1, 100⟩], [7, 8])) := by rfl

example :
    find_locations (fun _ => ⟨500, ([] : List Nat)⟩) 3 =
      some (.error .httpError) := by rfl

/-- C2: when the remote measurement endpoint serves full successful pages up
to the first page `k` whose result set is empty or whose result count is
below the page limit, `fetch_sensor_measurements` issues exactly the page
requests 1, 2, ..., k (explicit page numbers starting at 1 and incrementing
by 1, each carrying the configured limit), emits every record of each
successful non-empty page in order, and stops requesting after page `k`.
With `k = 2`, a page 1 of exactly `PAGE_LIMIT` records and an empty page 2,
this specializes to the spec's scenario: page 1's records are emitted and
exactly 2 page requests are issued. -/
theorem fetch_sensor_measurements_c2 {α : Type} (ep : Nat → Page α) (k : Nat)
    (hk : 1 ≤ k)
    (hfull : ∀ i, 1 ≤ i → i < k → fullMeasPage PAGE_LIMIT (ep i))
    (hterm : (ep k).status = 200 ∧
      ((ep k).results = [] ∨ (ep k).results.length < PAGE_LIMIT)) :
    fetch_sensor_measurements ep k =
      some ((List.range' 1 k).map (fun p => ⟨p, PAGE_LIMIT⟩),
        (List.range' 1 (k - 1)).flatMap (fun i => (ep i).results) ++ (ep k).results) := by
  obtain ⟨n, rfl⟩ : ∃ n, k = n + 1 := ⟨k - 1, by omega⟩
  have hc : 1 + n = n + 1 := by omega
  have hspec := fetchMeasFuel_spec PAGE_LIMIT ep n 1
    (fun i h1 h2 => hfull i h1 (by omega))
    (by rw [hc]; exact Or.inr hterm.2)
  rw [hc] at hspec
  unfold fetch_sensor_measurements
  rw [hspec, if_pos hterm.1]
  simp

/-- C2 witness: the spec's scenario with page 1 holding exactly `PAGE_LIMIT`
records and page 2 empty; the fetcher emits page 1's records and issues the
two requests (1, 1000) and (2, 1000). -/
theorem fetch_sensor_measurements_c2_witness :
    fetch_sensor_measurements measEpC2 2 =
      some ([⟨1, PAGE_LIMIT⟩, ⟨2, PAGE_LIMIT⟩], List.replicate 1000 (7 : Nat)) := by
  have h := fetch_sensor_measurements_c2 measEpC2 2
    (by omega)
    (by
      intro i h1 h2
      have hi : i = 1 := by omega
      subst hi
      show fullMeasPage PAGE_LIMIT (⟨200, List.replicate 1000 (7 : Nat)⟩ : Page Nat)
      refine ⟨rfl, ?_, ?_⟩
      · intro hcon
        have hlen := congrArg List.length hcon
        rw [List.length_replicate] at hlen
        exact absurd hlen (by decide)
      · rw [List.length_replicate]
        decide)
    (by exact ⟨rfl, Or.inl rfl⟩)
  rw [h]
  simp only [show List.range' 1 2 = [1, 2] from rfl, show (2 : Nat) - 1 = 1 from rfl,
    show List.range' 1 1 = [1] from rfl, List.map_cons, List.map_nil, List.flatMap_cons,
    List.flatMap_nil, List.append_nil,
    show measEpC2 1 = ⟨200, List.replicate 1000 7⟩ from rfl,
    show measEpC2 2 = ⟨200, []⟩ from rfl]

/-- C3: if the measurement endpoint serves full successful pages before page
`k` and page `k` comes back with any non-200 status (404 included), the
fetcher returns normally (no exception: the loop result is `some`, via the
early-`return` branches of the source), emits no record from that response,
and keeps the records already emitted from the earlier successful pages. -/
theorem fetch_sensor_measurements_c3 {α : Type} (ep : Nat → Page α) (k : Nat)
    (hk : 1 ≤ k)
    (hfull : ∀ i, 1 ≤ i → i < k → fullMeasPage PAGE_LIMIT (ep i))
    (hbad : (ep k).status ≠ 200) :
    fetch_sensor_measurements ep k =
      some ((List.range' 1 k).map (fun p => ⟨p, PAGE_LIMIT⟩),
        (List.range' 1 (k - 1)).flatMap (fun i => (ep i).results)) := by
  obtain ⟨n, rfl⟩ : ∃ n, k = n + 1 := ⟨k - 1, by omega⟩
  have hc : 1 + n = n + 1 := by omega
  have hspec := fetchMeasFuel_spec PAGE_LIMIT ep n 1
    (fun i h1 h2 => hfull i h1 (by omega))
    (by rw [hc]; exact Or.inl hbad)
  rw [hc] at hspec
  unfold fetch_sensor_measurements
  rw [hspec, if_neg hbad]
  simp

/-- C3 witness: the spec's scenario where the only page request returns a
404; the fetcher yields zero records and returns normally. -/
theorem fetch_sensor_measurements_c3_witness :
    fetch_sensor_measurements (fun _ => ⟨404, ([] : List Nat)⟩) 1 =
      some ([⟨1, PAGE_LIMIT⟩], []) := by
  have h := fetch_sensor_measurements_c3 (fun _ => ⟨404, ([] : List Nat)⟩) 1
    (by omega) (by intro i h1 h2; omega) (by decide)
  simpa [List.range'] using h

/-- C4 counterexample: `find_locations` only concatenates the pages' result
arrays (`all_locs.extend(results)`) and never deduplicates, so when the
single (short) page returned by the endpoint contains the same descriptor
twice, the descriptor appears twice in the result, refuting "no descriptor
appears more than once in the result". -/
theorem find_locations_c4_cex :
    find_locations (fun _ => ({ status := 200, results := [7, 7] } : Page Nat)) 1 =
      some (.ok ([⟨1, 100⟩], [7, 7])) ∧ ¬ ([7, 7] : List Nat).Nodup := by
  exact ⟨rfl, by decide⟩

/-- C4 (amended: the result is the complete concatenation of the fetched
pages, dropping nothing, but duplicates are preserved as received): when the
endpoint serves non-raising pages of at least the page size 100 up to the
first page `k` with an empty or short result set, `find_locations` issues
exactly the page requests 1, ..., k with limit 100 and returns, in order,
every descriptor of every fetched page.  With a page 1 of 100 results and a
page 2 of 50, this specializes to the spec's scenario: 2 page requests and
150 locations. -/
theorem find_locations_c4 {α : Type} (ep : Nat → Page α) (k : Nat)
    (hk : 1 ≤ k)
    (hfull : ∀ i, 1 ≤ i → i < k → fullLocPage (ep i))
    (hterm : termLocPage (ep k)) :
    find_locations ep k =
      some (.ok ((List.range' 1 k).map (fun p => ⟨p, 100⟩),
        (List.range' 1 k).flatMap (fun i => (ep i).results))) := by
  obtain ⟨n, rfl⟩ : ∃ n, k = n + 1 := ⟨k - 1, by omega⟩
  have hc : 1 + n = n + 1 := by omega
  have hspec := findLocFuel_spec ep n 1
    (fun i h1 h2 => hfull i h1 (by omega))
    (by rw [hc]; exact hterm)
  unfold find_locations
  exact hspec

/-- C4 witness: the spec's scenario of 150 available locations with page size
100: page 1 returns 100 descriptors, page 2 returns 50; the discoverer issues
exactly the two requests (1, 100) and (2, 100) and returns all 150
descriptors. -/
theorem find_locations_c4_witness :
    find_locations
        (fun p => if p = 1 then ⟨200, List.range 100⟩
          else if p = 2 then ⟨200, List.range' 100 50⟩ else ⟨200, ([] : List Nat)⟩) 2 =
      some (.ok ([⟨1, 100⟩, ⟨2, 100⟩], List.range 100 ++ List.range' 100 50)) ∧
    (List.range 100 ++ List.range' 100 50).length = 150 := by
  constructor
  · have h := find_locations_c4
      (fun p => if p = 1 then ⟨200, List.range 100⟩
        else if p = 2 then ⟨200, List.range' 100 50⟩ else ⟨200, ([] : List Nat)⟩) 2
      (by omega)
      (by
        intro i h1 h2
        have hi : i = 1 := by omega
        subst hi
        exact ⟨by norm_num, by simp⟩)
      (by exact ⟨by norm_num, Or.inr (by simp)⟩)
    simpa [List.range'] using h
  · simp

theorem findLocFuel_limits {α : Type} (ep : Nat → Page α) :
    ∀ (fuel page : Nat) (reqs : List Req) (locs : List α),
      findLocFuel ep fuel page = some (.ok (reqs, locs)) → ∀ q ∈ reqs, q.limit = 100 := by
  intro fuel
  induction fuel with
  | zero => intro page reqs locs h; exact absurd h (by simp [findLocFuel])
  | succ n ih =>
    intro page reqs locs h q hq
    simp only [findLocFuel] at h
    split at h
    · cases h
    · split at h
      · cases h
        simp only [List.mem_singleton] at hq
        subst hq
        rfl
      · split at h
        · cases h
          simp only [List.mem_singleton] at hq
          subst hq
          rfl
        · cases hrec : findLocFuel ep n (page + 1) with
          | none => rw [hrec] at h; cases h
          | some res =>
            rw [hrec] at h
            cases res with
            | error e => cases h
            | ok pr =>
              obtain ⟨reqs', locs'⟩ := pr
              cases h
              rcases List.mem_cons.mp hq with rfl | hq'
              · rfl
              · exact ih (page + 1) reqs' locs' hrec q hq'

theorem fetchMeasFuel_limits {α : Type} (pl : Nat) (ep : Nat → Page α) :
    ∀ (fuel page : Nat) (reqs : List Req) (recs : List α),
      fetchMeasFuel pl ep fuel page = some (reqs, recs) → ∀ q ∈ reqs, q.limit = pl := by
  intro fuel
  induction fuel with
  | zero => intro page reqs recs h; exact absurd h (by simp [fetchMeasFuel])
  | succ n ih =>
    intro page reqs recs h q hq
    simp only [fetchMeasFuel] at h
    split at h
    · cases h
      simp only [List.mem_singleton] at hq
      subst hq
      rfl
    · split at h
      · cases h
        simp only [List.mem_singleton] at hq
        subst hq
        rfl
      · split at h
        · cases h
          simp only [List.mem_singleton] at hq
          subst hq
          rfl
        · split at h
          · cases h
            simp only [List.mem_singleton] at hq
            subst hq
            rfl
          · cases hrec : fetchMeasFuel pl ep n (page + 1) with
            | none => rw [hrec] at h; cases h
            | some pr =>
              obtain ⟨reqs', recs'⟩ := pr
              rw [hrec] at h
              cases h
              rcases List.mem_cons.mp hq with rfl | hq'
              · rfl
              · exact ih (page + 1) reqs' recs' hrec q hq'

/-- C10: every page request issued by `find_locations` carries the hard-coded
limit 100, whatever the configured `PAGE_LIMIT` is; every page request issued
by the measurement loop carries its page-limit argument, and
`fetch_sensor_measurements` instantiates that argument with the global
`PAGE_LIMIT = 1000`.  The two paginated endpoints therefore use different,
not uniformly configurable, page sizes. -/
theorem page_limits_c10 :
    (∀ (α : Type) (ep : Nat → Page α) (fuel page : Nat) (reqs : List Req) (locs : List α),
      findLocFuel ep fuel page = some (.ok (reqs, locs)) → ∀ q ∈ reqs, q.limit = 100) ∧
    (∀ (α : Type) (pl : Nat) (ep : Nat → Page α) (fuel page : Nat)
      (reqs : List Req) (recs : List α),
      fetchMeasFuel pl ep fuel page = some (reqs, recs) → ∀ q ∈ reqs, q.limit = pl) ∧
    (∀ (α : Type) (ep : Nat → Page α) (fuel : Nat),
      fetch_sensor_measurements ep fuel = fetchMeasFuel PAGE_LIMIT ep fuel 1) ∧
    PAGE_LIMIT = 1000 ∧ (100 : Nat) ≠ PAGE_LIMIT :=
  ⟨fun _ ep => findLocFuel_limits ep,
   fun _ pl ep => fetchMeasFuel_limits pl ep,
   fun _ _ _ => rfl,
   rfl,
   by decide⟩

/-- C10 witness: a concrete single-page run of each loop, showing a location
request with limit 100 and a measurement request with limit `PAGE_LIMIT`. -/
theorem page_limits_c10_witness :
    ({ page := 1, limit := 100 } : Req).limit = 100 ∧
    ({ page := 1, limit := PAGE_LIMIT } : Req).limit = PAGE_LIMIT :=
  ⟨page_limits_c10.1 Nat (fun _ => ⟨200, []⟩) 1 1 [⟨1, 100⟩] [] rfl ⟨1, 100⟩ (by simp),
   page_limits_c10.2.1 Nat PAGE_LIMIT (fun _ => ⟨200, []⟩) 1 1 [⟨1, PAGE_LIMIT⟩] [] rfl
     ⟨1, PAGE_LIMIT⟩ (by simp)⟩

theorem flatMap_congr_mem {α β : Type} {l : List α} {f g : α → List β}
    (h : ∀ a ∈ l, f a = g a) : l.flatMap f = l.flatMap g := by
  induction l with
  | nil => rfl
  | cons x xs ih =>
    simp only [List.flatMap_cons]
    rw [h x (List.mem_cons_self x xs), ih (fun a ha => h a (List.mem_cons_of_mem x ha))]

/-- C6: `safe_extract` never raises for missing fields: an absent or empty
(falsy) input yields the `None` sentinel, and for a non-empty record with the
`coordinates` and `date` substructures missing (treated as empty dicts), it
returns a row, with every recognized field that is absent from the source set
to the missing-value marker `None` rather than causing an error. -/
theorem safe_extract_c6 :
    (∀ rec, truthy rec = false → safe_extract rec = .ok none) ∧
    (∀ fs : List (String × JVal), fs ≠ [] →
      fs.lookup "coordinates" = none → fs.lookup "date" = none →
      ∃ r, safe_extract (.obj fs) = .ok (some r) ∧
        r.latitude = .null ∧ r.longitude = .null ∧
        r.date_utc = .null ∧ r.date_local = .null ∧
        (fs.lookup "location" = none → r.location = .null) ∧
        (fs.lookup "parameter" = none → r.parameter = .null) ∧
        (fs.lookup "value" = none → r.value = .null) ∧
        (fs.lookup "unit" = none → r.unit = .null) ∧
        (fs.lookup "attribution" = none → r.attribution = .null) ∧
        (fs.lookup "sourceName" = none → r.sourceName = .null) ∧
        r.raw = .obj fs) := by
  constructor
  · intro rec h
    simp [safe_extract, h]
  · intro fs hfs hc hd
    have hco : orEmptyDict (jget fs "coordinates") = .obj [] := by
      simp [jget, hc, orEmptyDict, truthy]
    have hda : orEmptyDict (jget fs "date") = .obj [] := by
      simp [jget, hd, orEmptyDict, truthy]
    have hne : ¬ (truthy (.obj fs) = false) := by
      simp [truthy, List.isEmpty_iff, hfs]
    refine ⟨{ location := jget fs "location", parameter := jget fs "parameter",
              value := jget fs "value", unit := jget fs "unit",
              date_utc := .null, date_local := .null, latitude := .null,
              longitude := .null, attribution := jget fs "attribution",
              sourceName := jget fs "sourceName",
              raw := .obj fs }, ?_, rfl, rfl, rfl, rfl, ?_, ?_, ?_, ?_, ?_, ?_, rfl⟩
    · simp only [safe_extract, if_neg hne]
      simp only [hco, hda]
      rfl
    all_goals intro h; simp [jget, h]

/-- C6 witness: the sentinel on the `None` record, and the defaulted row on a
one-field record with no `coordinates`, `date`, `location`, `parameter`,
`unit`, `attribution` or `sourceName` keys. -/
theorem safe_extract_c6_witness :
    safe_extract .null = .ok none ∧
    ∃ r, safe_extract (.obj [("value", .num 5)]) = .ok (some r) ∧
      r.latitude = .null ∧ r.longitude = .null ∧
      r.date_utc = .null ∧ r.date_local = .null ∧
      ([("value", JVal.num 5)].lookup "location" = none → r.location = .null) ∧
      ([("value", JVal.num 5)].lookup "parameter" = none → r.parameter = .null) ∧
      ([("value", JVal.num 5)].lookup "value" = none → r.value = .null) ∧
      ([("value", JVal.num 5)].lookup "unit" = none → r.unit = .null) ∧
      ([("value", JVal.num 5)].lookup "attribution" = none → r.attribution = .null) ∧
      ([("value", JVal.num 5)].lookup "sourceName" = none → r.sourceName = .null) ∧
      r.raw = .obj [("value", .num 5)] :=
  ⟨safe_extract_c6.1 .null rfl,
   safe_extract_c6.2 [("value", .num 5)] (by simp) rfl rfl⟩

/-- C8: a sensor parameter descriptor given as the bare string `s` and one
given as a dict carrying `s` under the `name` key resolve through the
resolution logic of `main` to the same extracted parameter name (for
non-empty `s` that name is `s` itself; for the degenerate empty string both
collapse to the missing-value marker). -/
theorem sensor_param_c8 (s : String) :
    sensorParamName (some (.str s)) = sensorParamName (some (.obj [("name", .str s)])) := by
  by_cases h : s = ""
  · subst h
    rfl
  · simp [sensorParamName, orEmptyDict, truthy, jget, h, List.lookup]

/-- C8 witness: instantiation at the parameter name "pm25". -/
theorem sensor_param_c8_witness :
    sensorParamName (some (.str "pm25")) =
      sensorParamName (some (.obj [("name", .str "pm25")])) :=
  sensor_param_c8 "pm25"

theorem outputStage_false_nil : outputStage false [] = ⟨[], [], false, false, true⟩ := rfl

theorem outputStage_false_of_ne {outs : List OutRow} (h : outs ≠ []) :
    outputStage false outs = ⟨outs, [], true, false, false⟩ := by
  have hie : outs.isEmpty = false := by
    cases outs with
    | nil => exact absurd rfl h
    | cons a l => rfl
  simp [outputStage, hie]

theorem outputStage_true (outs : List OutRow) :
    outputStage true outs = ⟨[], outs, false, true, false⟩ := rfl

/-- C7: errors are contained at their unit.  (i) A failure of top-level
location discovery is fatal: it is the run's result.  (ii) Whenever discovery
succeeds, the run completes normally, whatever the fallback lookups, fetches
and record contents do: no other failure escalates to the run.  (iii) A
failing fallback sensors-for-location lookup degrades exactly that location
to zero sensors: the run's outcome is the same as if the location were not
there, so the other locations proceed.  (iv) The outcome never depends on the
exceptions raised inside (sensor, chunk) fetches, only on the records they
yielded: a failing fetch is contained and the remaining chunks, sensors and
locations proceed.  (v) A record on which normalization raises is skipped and
the rest of its batch survives unchanged. -/
theorem main_c7 :
    (∀ w ndj now e, w.locations = .error e → mainRun w ndj now = .error e) ∧
    (∀ w ndj now locs, w.locations = .ok locs → ∃ res, mainRun w ndj now = .ok res) ∧
    (∀ w ndj now l₁ l₂ loc e', w.locations = .ok (l₁ ++ loc :: l₂) →
      loc.sensors = [] → w.fallback loc.id = .error e' →
      mainRun w ndj now = mainRun { w with locations := .ok (l₁ ++ l₂) } ndj now) ∧
    (∀ w w' ndj now, w.locations = w'.locations → w.fallback = w'.fallback →
      (∀ sid c, (w.fetch sid c).1 = (w'.fetch sid c).1) →
      mainRun w ndj now = mainRun w' ndj now) ∧
    (∀ a b c d r₁ r₂ bad err, safe_extract bad = .error err →
      (r₁ ++ bad :: r₂).filterMap (processRecord a b c d) =
        (r₁ ++ r₂).filterMap (processRecord a b c d)) := by
  refine ⟨?_, ?_, ?_, ?_, ?_⟩
  · intro w ndj now e h
    simp [mainRun, h]
  · intro w ndj now locs h
    simp only [mainRun, h]
    exact ⟨_, rfl⟩
  · intro w ndj now l₁ l₂ loc e' hloc hsens hfb
    have hdrop : processLoc w (mainChunks now) loc = [] := by
      simp [processLoc, sensorsOf, hsens, hfb]
    have hsplit : (l₁ ++ loc :: l₂).flatMap (processLoc w (mainChunks now)) =
        (l₁ ++ l₂).flatMap (processLoc w (mainChunks now)) := by
      simp [List.flatMap_append, List.flatMap_cons, hdrop]
    simp only [mainRun, hloc, hsplit]
    rfl
  · intro w w' ndj now hloc hfb hfetch
    have hpl : ∀ chunks loc', processLoc w chunks loc' = processLoc w' chunks loc' := by
      intro chunks loc'
      unfold processLoc sensorsOf
      rw [hfb]
      refine flatMap_congr_mem ?_
      intro s _
      refine flatMap_congr_mem ?_
      intro c _
      rw [hfetch s.id c]
    unfold mainRun
    rw [← hloc]
    cases hw : w.locations with
    | error e => rfl
    | ok locs =>
      have houts : locs.flatMap (processLoc w (mainChunks now)) =
          locs.flatMap (processLoc w' (mainChunks now)) :=
        flatMap_congr_mem (fun a _ => hpl (mainChunks now) a)
      simp only [houts]
  · intro a b c d r₁ r₂ bad err hbad
    simp [List.filterMap_append, List.filterMap_cons, processRecord, hbad]

/-- C7 witness: concrete one-step instances of each containment clause, on
worlds with a failing discovery, an empty location list, a single location
whose fallback lookup fails, two worlds differing only in a fetch exception,
and a batch containing one malformed (non-dict) record. -/
theorem main_c7_witness :
    mainRun ⟨.error .httpError, fun _ => .ok [], fun _ _ => ([], none)⟩ false 0 =
      .error .httpError ∧
    (∃ res, mainRun ⟨.ok [], fun _ => .ok [], fun _ _ => ([], none)⟩ false 0 = .ok res) ∧
    mainRun ⟨.ok [⟨.num 1, .str "kath", []⟩], fun _ => .error .runtimeError,
        fun _ _ => ([], none)⟩ false 0 =
      mainRun { locations := Except.ok ([] ++ []),
                fallback := fun _ => Except.error PyErr.runtimeError,
                fetch := fun _ _ => ([], none) } false 0 ∧
    mainRun ⟨.ok [], fun _ => .ok [], fun _ _ => ([], some .runtimeError)⟩ false 0 =
      mainRun ⟨.ok [], fun _ => .ok [], fun _ _ => ([], none)⟩ false 0 ∧
    ([] ++ JVal.str "x" :: []).filterMap (processRecord .null .null .null .null) =
      ([] ++ []).filterMap (processRecord .null .null .null .null) :=
  ⟨main_c7.1 _ false 0 .httpError rfl,
   main_c7.2.1 _ false 0 [] rfl,
   main_c7.2.2.1 _ false 0 [] [] ⟨.num 1, .str "kath", []⟩ .runtimeError rfl rfl rfl,
   main_c7.2.2.2.1 _ _ false 0 rfl rfl (fun _ _ => rfl),
   main_c7.2.2.2.2 .null .null .null .null [] [] (.str "x") .attributeError rfl⟩

/-- C9: in buffered-table mode a run that collects zero rows warns and
finishes normally with no CSV written and no NDJSON file created; in
streaming mode every run that gets past discovery creates the line-delimited
output file, however many rows are collected. -/
theorem main_c9 :
    (∀ w now res, mainRun w false now = .ok res → res.rows = [] →
      res.warned = true ∧ res.csvWritten = false ∧ res.fileCreated = false) ∧
    (∀ w now locs, w.locations = .ok locs →
      ∃ res, mainRun w true now = .ok res ∧ res.fileCreated = true) := by
  constructor
  · intro w now res h hrows
    cases hw : w.locations with
    | error e => simp [mainRun, hw] at h
    | ok locs =>
      simp only [mainRun, hw] at h
      obtain rfl := (Except.ok.inj h).symm
      by_cases houts : locs.flatMap (processLoc w (mainChunks now)) = []
      · rw [houts]
        exact ⟨rfl, rfl, rfl⟩
      · rw [outputStage_false_of_ne houts] at hrows
        exact absurd hrows houts
  · intro w now locs hloc
    exact ⟨outputStage true (locs.flatMap (processLoc w (mainChunks now))),
      by simp [mainRun, hloc], rfl⟩

/-- C9 witness: an empty-discovery world; in buffered mode it warns and
writes nothing, in streaming mode it creates the (empty) NDJSON file. -/
theorem main_c9_witness :
    ((⟨[], [], false, false, true⟩ : MainResult).warned = true ∧
      (⟨[], [], false, false, true⟩ : MainResult).csvWritten = false ∧
      (⟨[], [], false, false, true⟩ : MainResult).fileCreated = false) ∧
    (∃ res, mainRun ⟨.ok [], fun _ => .ok [], fun _ _ => ([], none)⟩ true 0 = .ok res ∧
      res.fileCreated = true) :=
  ⟨main_c9.1 ⟨.ok [], fun _ => .ok [], fun _ _ => ([], none)⟩ 0
      ⟨[], [], false, false, true⟩ rfl rfl,
   main_c9.2 ⟨.ok [], fun _ => .ok [], fun _ _ => ([], none)⟩ 0 [] rfl⟩
